import Mathlib

/-!
Verification of the `clock` package of kapetan-io/tackle: a deterministic
virtual-clock facility.  The repository snapshot contains `provider.go`,
`with_mutex.go`, `without_mutex.go` and the test files; the frozen-time
engine (`frozenTime` and the package-level clock functions) is referenced
by that code but its source file is absent, so it is modelled here from
the specification (section 4.1 of the spec), faithful to its words.

Time instants and durations are modelled as `Int` (Go's `time.Time` /
`time.Duration` nanosecond arithmetic; no claim exercises 64-bit
overflow, so plain integers are used).
-/

namespace Tackle

/-- Modelled from the spec: `ScheduledEvent` (spec section 3) — a pending
timer or ticker firing, with target instant, creation-sequence number,
repeat interval (zero for one-shot timers) and active flag.  The `id`
field is the stable handle identity used by `Stop`/`Reset`; at creation
the id and the sequence number coincide (both come from the same
strictly-increasing counter). -/
structure ScheduledEvent where
  id : Nat
  targetInstant : Int
  sequence : Nat
  interval : Int
  active : Bool
deriving DecidableEq, Repr

/-- Modelled from the spec: `FrozenTimeSource` state (spec section 3) —
the instant freezing began, the synthetic current instant, the pending
events ordered by `(targetInstant, insertion order)`, and the counter
that assigns sequence numbers. -/
structure FrozenTime where
  frozenAt : Int
  currentInstant : Int
  pendingEvents : List ScheduledEvent
  nextSeq : Nat
deriving DecidableEq, Repr

/-- Modelled from the spec: `freeze(at)` installs a fresh frozen source
with `frozenAt = currentInstant = at` and no pending events. -/
def freshFrozen (t : Int) : FrozenTime :=
  { frozenAt := t, currentInstant := t, pendingEvents := [], nextSeq := 0 }

/-- Modelled from the spec: insertion into the pending collection keeps
it ordered by target instant, and a newly inserted event goes AFTER all
events already queued for the same target instant (tail of that
instant's group) — this is the re-insertion behaviour section 4.1 requires
for `Reset`, and for fresh events it yields creation-sequence order
within a group. -/
def insertEvent (e : ScheduledEvent) : List ScheduledEvent → List ScheduledEvent
  | [] => [e]
  | x :: xs =>
    if e.targetInstant < x.targetInstant then e :: x :: xs
    else x :: insertEvent e xs

/-- Modelled from the spec: scheduling a new event against a frozen
source — assigns the next sequence number, targets
`currentInstant + d`, and inserts it into the pending collection.
Returns the new state and the handle id. -/
def FrozenTime.schedule (ft : FrozenTime) (d : Int) (interval : Int) :
    FrozenTime × Nat :=
  let e : ScheduledEvent :=
    { id := ft.nextSeq, targetInstant := ft.currentInstant + d,
      sequence := ft.nextSeq, interval := interval, active := true }
  ({ ft with pendingEvents := insertEvent e ft.pendingEvents,
             nextSeq := ft.nextSeq + 1 }, ft.nextSeq)

/-- Modelled from the spec: `now()` returns `currentInstant` (spec
section 4.1). -/
def FrozenTime.now (ft : FrozenTime) : Int := ft.currentInstant

/-- Modelled from the spec: the firing loop of `advance` (spec section
4.1 steps 2-6).  The head of `pendingEvents` is the least
`(targetInstant, order)` event.  While the head's target is within
`target`: an active head fires (current instant jumps to its target, the
event is recorded in the fired list, and a ticker is re-inserted at
`previous targetInstant + interval`); an inactive head is discarded.
`fuel` bounds the recursion; the caller supplies enough for all due
firings. -/
def fireDue : Nat → FrozenTime → Int → List ScheduledEvent →
    FrozenTime × List ScheduledEvent
  | 0, ft, _, acc => (ft, acc)
  | Nat.succ fuel, ft, target, acc =>
    match ft.pendingEvents with
    | [] => (ft, acc)
    | e :: rest =>
      if e.targetInstant ≤ target then
        if e.active then
          let pend :=
            if 0 < e.interval then
              insertEvent { e with targetInstant := e.targetInstant + e.interval } rest
            else rest
          fireDue fuel
            { ft with currentInstant := e.targetInstant, pendingEvents := pend }
            target (acc ++ [e])
        else
          fireDue fuel { ft with pendingEvents := rest } target acc
      else (ft, acc)

/-- Fuel sufficient for one pending event within an advance to `target`:
a ticker can fire at most `(target - targetInstant) / interval + 1`
times, a one-shot event once. -/
def eventFuel (target : Int) (e : ScheduledEvent) : Nat :=
  if 0 < e.interval then ((target - e.targetInstant) / e.interval).toNat + 2
  else 1

/-- Fuel sufficient to process every due firing of an advance call. -/
def fuelBound (ft : FrozenTime) (target : Int) : Nat :=
  (ft.pendingEvents.map (eventFuel target)).sum + 1

/-- Modelled from the spec: `advance(delta)` (spec section 4.1) —
computes `target = currentInstant + delta`, fires due events in
`(targetInstant, order)` order via `fireDue`, then sets
`currentInstant = target` (step 7).  Returns the new state and the list
of fired events in firing order. -/
def FrozenTime.advance (ft : FrozenTime) (d : Int) :
    FrozenTime × List ScheduledEvent :=
  let target := ft.currentInstant + d
  let r := fireDue (fuelBound ft target) ft target []
  ({ r.1 with currentInstant := target }, r.2)

/-- Whether an event with handle id `i` is pending and active. -/
def isActiveEvent (i : Nat) (e : ScheduledEvent) : Bool :=
  e.id == i && e.active

/-- Whether the frozen source still holds an active event for id `i`. -/
def FrozenTime.isScheduled (ft : FrozenTime) (i : Nat) : Bool :=
  ft.pendingEvents.any (isActiveEvent i)

/-- Deactivation of the event with id `i` (leaves others unchanged). -/
def deactivate (i : Nat) (e : ScheduledEvent) : ScheduledEvent :=
  if e.id == i then { e with active := false } else e

/-- Modelled from the spec: `Stop(event)` (spec section 4.1) deactivates
the event if still pending and returns whether it was active immediately
prior to the call. -/
def FrozenTime.stop (ft : FrozenTime) (i : Nat) : FrozenTime × Bool :=
  ({ ft with pendingEvents := ft.pendingEvents.map (deactivate i) },
   ft.isScheduled i)

/-- Modelled from the spec: `Reset(event, newInterval)` (spec section
4.1) — returns whether the event was still active, removes its old
entry, and re-inserts it (original sequence number kept, target
`currentInstant + newInterval`) at the tail of its new instant group via
`insertEvent`.  A ticker's repeat interval becomes the new interval; a
one-shot timer stays one-shot. -/
def FrozenTime.reset (ft : FrozenTime) (i : Nat) (d : Int) :
    FrozenTime × Bool :=
  let old := ft.pendingEvents.find? (fun e => e.id == i)
  let wasActive := ft.isScheduled i
  let rest := ft.pendingEvents.filter (fun e => e.id != i)
  let intv : Int :=
    match old with
    | some e => if e.interval = 0 then 0 else d
    | none => 0
  let e : ScheduledEvent :=
    { id := i, targetInstant := ft.currentInstant + d, sequence := i,
      interval := intv, active := true }
  ({ ft with pendingEvents := insertEvent e rest }, wasActive)

/-- Modelled from the spec: `newTimer(d)` schedules a one-shot event. -/
def FrozenTime.newTimer (ft : FrozenTime) (d : Int) : FrozenTime × Nat :=
  ft.schedule d 0

/-- Modelled from the spec: `afterFunc(d, cb)` schedules a one-shot
event whose firing invokes the callback; the callback itself is
identified by the handle id in the fired list. -/
def FrozenTime.afterFunc (ft : FrozenTime) (d : Int) : FrozenTime × Nat :=
  ft.schedule d 0

/-- Modelled from the spec: `newTicker(d)` fails (panic in Go) if
`d <= 0`, else schedules a repeating event with interval `d`.  `none`
models the panic. -/
def FrozenTime.newTicker (ft : FrozenTime) (d : Int) :
    Option (FrozenTime × Nat) :=
  if d ≤ 0 then none else some (ft.schedule d d)

/-- Modelled from the spec: `tick(d)` returns only the delivery channel;
for `d <= 0` it is a no-op returning an absent (nil) channel instead of
failing. -/
def FrozenTime.tick (ft : FrozenTime) (d : Int) : FrozenTime × Option Nat :=
  if d ≤ 0 then (ft, none)
  else
    let r := ft.schedule d d
    (r.1, some r.2)

/-- Modelled from the spec: `newStoppedTimer()` hands out a timer handle
that is pre-stopped — its id is allocated but no pending event exists
for it, so `Stop` on it reports `false`. -/
def FrozenTime.newStoppedTimer (ft : FrozenTime) : FrozenTime × Nat :=
  ({ ft with nextSeq := ft.nextSeq + 1 }, ft.nextSeq)

/-- Modelled from the spec: delivery of fired ticks onto a capacity-one
channel (spec section 3, `deliver`): a fired tick carries the fire
instant; if the previous tick is still unconsumed the new tick is
dropped (standard slow-consumer ticker semantics). -/
def deliverTicks (tid : Nat) (slot : Option Int)
    (fired : List ScheduledEvent) : Option Int :=
  fired.foldl
    (fun s e =>
      if e.id == tid then
        match s with
        | none => some e.targetInstant
        | some v => some v
      else s)
    slot

/-- A frozen source together with one ticker handle and its capacity-one
delivery channel, used to state the ticker-cadence scenarios. -/
structure TickerSim where
  ft : FrozenTime
  tid : Nat
  slot : Option Int
deriving DecidableEq, Repr

/-- Advancing the simulated ticker clock: run `advance`, then deliver
every firing of the ticker handle onto the channel slot. -/
def TickerSim.adv (s : TickerSim) (d : Int) : TickerSim :=
  let r := s.ft.advance d
  ⟨r.1, s.tid, deliverTicks s.tid s.slot r.2⟩

/-- Receiving from the simulated ticker channel: returns the pending
tick (if any) and empties the slot. -/
def TickerSim.recv (s : TickerSim) : TickerSim × Option Int :=
  (⟨s.ft, s.tid, none⟩, s.slot)

/-- Creation of a ticker simulation via `newTicker` on a source frozen
at `t0`; `none` when `newTicker` fails. -/
def mkTickerSim (t0 d : Int) : Option TickerSim :=
  ((freshFrozen t0).newTicker d).map (fun r => ⟨r.1, r.2, none⟩)

/-- From the source (`provider.go` types plus the `Clock` variants of
the missing engine file): the installed time source is either the
real-time pass-through or a frozen source. -/
inductive Clock where
  | realtime : Clock
  | frozen : FrozenTime → Clock
deriving DecidableEq, Repr

/-- Now on a time source; the real-time source's reading is supplied as
the `realNow` oracle (the OS clock is outside the model). -/
def Clock.now (c : Clock) (realNow : Int) : Int :=
  match c with
  | .realtime => realNow
  | .frozen ft => ft.currentInstant

/-- Modelled from the spec and `without_mutex.go`: the global singleton
starts with the real-time source installed (`provider Clock =
realtime`). -/
def globalInitial : Clock := Clock.realtime

/-- From the source (`without_mutex.go`): an isolated provider holds the
currently installed source; the zero value of `NewProvider` has a Go nil
interface there, modelled as `none`. -/
structure Provider where
  provider : Option Clock
deriving DecidableEq, Repr

/-- From the source (`provider.go`): `NewProvider` returns `&Provider{}`
— no time source installed. -/
def NewProvider : Provider := ⟨none⟩

/-- From the source (`provider.go`): `Freeze(now)` installs a fresh
frozen source with `frozenAt = now = currentInstant`. -/
def Provider.Freeze (_cp : Provider) (t : Int) : Provider :=
  ⟨some (.frozen (freshFrozen t))⟩

/-- From the source (`provider.go`): `UnFreeze` reinstalls the real-time
source. -/
def Provider.UnFreeze (_cp : Provider) : Provider :=
  ⟨some .realtime⟩

/-- From the source (`provider.go`): `Now` delegates to the installed
source; with no source installed the Go code dereferences a nil
interface and panics (`none`). -/
def Provider.Now (cp : Provider) (realNow : Int) : Option Int :=
  cp.provider.map (fun c => c.now realNow)

/-- From the source (`provider.go`): `Advance(d)` type-asserts the
provider's own installed source to a frozen source (panicking — `none` —
otherwise, before any state change), advances it, and then returns
`Now().Sub(ft.frozenAt)` where `Now()` is the PACKAGE-LEVEL function
reading the GLOBAL provider `g` — not this provider's own source.  The
global source and the real-time reading are passed explicitly. -/
def Provider.Advance (cp : Provider) (g : Clock) (realNow : Int)
    (d : Int) : Option (Provider × Int) :=
  match cp.provider with
  | some (.frozen ft) =>
    let ft2 := (ft.advance d).1
    some (⟨some (.frozen ft2)⟩, Clock.now g realNow - ft.frozenAt)
  | _ => none

/-- Modelled from the spec: the package-level `Advance` of the missing
engine file, acting on the global source: it advances the global frozen
source and returns `Now().Sub(ft.frozenAt)`, which — because the
package-level `Now()` reads the same global source just advanced — is
`currentInstant - frozenAt`, the elapsed synthetic time since the
freeze.  Panics (`none`) when the global source is not frozen. -/
def globalAdvance (g : Clock) (d : Int) : Option (Clock × Int) :=
  match g with
  | .frozen ft =>
    let ft2 := (ft.advance d).1
    some (.frozen ft2, ft2.currentInstant - ft2.frozenAt)
  | .realtime => none

/-- From the source (`provider.go`): `Sleep` delegates to the installed
source; nil source panics (`none`).  Under a frozen source a sleep
schedules a one-shot event for its deadline (blocking is outside the
sequential model); the real-time path is an OS pass-through. -/
def Provider.Sleep (cp : Provider) (d : Int) : Option Provider :=
  match cp.provider with
  | none => none
  | some .realtime => some cp
  | some (.frozen ft) => some ⟨some (.frozen (ft.newTimer d).1)⟩

/-- From the source (`provider.go`): `After` delegates to the installed
source; nil source panics (`none`).  Returns the new provider state and
the channel handle id (0 marks the out-of-scope OS channel on the
real-time path). -/
def Provider.After (cp : Provider) (d : Int) : Option (Provider × Nat) :=
  match cp.provider with
  | none => none
  | some .realtime => some (cp, 0)
  | some (.frozen ft) =>
    let r := ft.newTimer d
    some (⟨some (.frozen r.1)⟩, r.2)

/-- From the source (`provider.go`): `NewTimer` delegates to the
installed source; nil source panics (`none`). -/
def Provider.NewTimer (cp : Provider) (d : Int) : Option (Provider × Nat) :=
  match cp.provider with
  | none => none
  | some .realtime => some (cp, 0)
  | some (.frozen ft) =>
    let r := ft.newTimer d
    some (⟨some (.frozen r.1)⟩, r.2)

/-- From the source (`provider.go`): `NewTicker` delegates to the
installed source; nil source panics (`none`), and either source's
`newTicker` itself panics on a non-positive interval. -/
def Provider.NewTicker (cp : Provider) (d : Int) : Option (Provider × Nat) :=
  match cp.provider with
  | none => none
  | some .realtime => if d ≤ 0 then none else some (cp, 0)
  | some (.frozen ft) =>
    (ft.newTicker d).map (fun r => (⟨some (.frozen r.1)⟩, r.2))

/-- From the source (`provider.go`): `Tick` delegates to the installed
source; nil source panics (`none`); either source returns an absent
channel for a non-positive interval. -/
def Provider.Tick (cp : Provider) (d : Int) :
    Option (Provider × Option Nat) :=
  match cp.provider with
  | none => none
  | some .realtime => some (cp, if d ≤ 0 then none else some 0)
  | some (.frozen ft) =>
    let r := ft.tick d
    some (⟨some (.frozen r.1)⟩, r.2)

/-- From the source (`provider.go`): `Wait4Scheduled` delegates to the
installed source; nil source panics (`none`).  Only the non-blocking
fast path of the frozen source is represented here (the full waiter
semantics is modelled separately by `wait4scheduled`); the real-time
source has no pending-events collection to wait on. -/
def Provider.Wait4Scheduled (cp : Provider) (n : Nat) (_timeout : Int) :
    Option Bool :=
  match cp.provider with
  | none => none
  | some .realtime => some false
  | some (.frozen ft) => some (decide (n ≤ ft.pendingEvents.length))

/-- Modelled from the spec: `wait4scheduled(count, timeout)` (spec
section 4.1) as a sequential function of the observable real-time
schedule: `pending` is the number of events pending at call time and
`arrivals` lists the real-time offsets (from call time, in order of
occurrence) at which further events become pending.  It returns `true`
as soon as at least `count` events are simultaneously pending — at once
on the fast path — and `false` once the timeout elapses first. -/
def wait4scheduled (count : Nat) (timeout : Int) :
    Nat → List Int → Bool
  | pending, [] => decide (count ≤ pending)
  | pending, t :: rest =>
    if count ≤ pending then true
    else if t ≤ timeout then wait4scheduled count timeout (pending + 1) rest
    else false

/-- Firing-order relation of the spec: earlier target instant first,
ties broken by ascending creation-sequence number. -/
def evLex (a b : ScheduledEvent) : Prop :=
  a.targetInstant < b.targetInstant ∨
    (a.targetInstant = b.targetInstant ∧ a.sequence ≤ b.sequence)

instance : DecidableRel evLex := fun a b => by
  unfold evLex; infer_instance

/-- The ticker of the C2 scenario: interval 100, created by `newTicker`
on a source frozen at instant 0 (handle id 0, empty channel). -/
def c2t0 : TickerSim := ⟨((freshFrozen 0).schedule 100 100).1, 0, none⟩

/-- C2 scenario after `Advance(99)`. -/
def c2t1 : TickerSim := c2t0.adv 99

/-- C2 scenario after a further `Advance(1)`. -/
def c2t2 : TickerSim := c2t1.adv 1

/-- C2 scenario: tick consumed, then `Advance(750)`. -/
def c2t3 : TickerSim := c2t2.recv.1.adv 750

/-- C2 scenario: tick consumed, then `Advance(49)`. -/
def c2t4 : TickerSim := c2t3.recv.1.adv 49

/-- C2 scenario after the final `Advance(1)`. -/
def c2t5 : TickerSim := c2t4.adv 1

/-- The concrete ticker-cadence scenario of C2 (mirrors `TestTicker`):
interval-100 ticker from instant 0; `Advance(99)` fires nothing;
`Advance(1)` delivers instant 100; `Advance(750)` delivers exactly one
further tick, carrying instant 200; `Advance(49)` delivers nothing and
the next tick, after one more `Advance(1)`, carries instant 900. -/
def TickerCadenceScenario : Prop :=
  mkTickerSim 0 100 = some c2t0 ∧
  (c2t0.ft.advance 99).2 = [] ∧
  c2t1.slot = none ∧
  c2t2.slot = some 100 ∧
  c2t2.recv.2 = some 100 ∧
  c2t3.slot = some 200 ∧
  c2t4.slot = none ∧
  c2t5.slot = some 900

/-- The frozen source with three one-shot events E1 (id 0), E2 (id 1),
E3 (id 2), created in that order, all due at offset 100 from instant 0. -/
def threeAt100 : FrozenTime :=
  ((((freshFrozen 0).afterFunc 100).1.afterFunc 100).1.afterFunc 100).1

/-- The concrete same-instant ordering scenario of C3: E1, E2, E3 all
scheduled at relative offset 100 in creation order fire in order
E1, E2, E3 (ids 0, 1, 2) on `advance(100)`. -/
def SameInstantScenario : Prop :=
  (threeAt100.advance 100).2.map (fun e => e.id) = [0, 1, 2]

/-- The concrete reset-to-tail scenario of C4: with E1 (id 0) created
before E2 (id 1) and E3 (id 2), all due at offset 100, resetting E1 back
to the same absolute instant makes the firing order E2, E3, E1. -/
def ResetToTailScenario : Prop :=
  (threeAt100.reset 0 100).2 = true ∧
  ((threeAt100.reset 0 100).1.advance 100).2.map (fun e => e.id) = [1, 2, 0]

/-- Concrete parts of C7: a pre-stopped timer's `Stop` reports `false`,
`Stop` after the event fired reports `false`, and `Stop` on a pending
event reports `true` once and `false` on the second call.  The source
here holds one pending event with handle id 0. -/
def StopScenario : Prop :=
  (((freshFrozen 0).afterFunc 100).1.newStoppedTimer.1.stop
      ((freshFrozen 0).afterFunc 100).1.newStoppedTimer.2).2 = false ∧
  ((((freshFrozen 0).afterFunc 100).1.advance 100).1.stop 0).2 = false ∧
  (((freshFrozen 0).afterFunc 100).1.stop 0).2 = true ∧
  ((((freshFrozen 0).afterFunc 100).1.stop 0).1.stop 0).2 = false

/-- C1: evaluation of the advance return value.  On the GLOBAL clock the
returned duration is the cumulative synthetic elapsed time since the
freeze (42 then 55, as the claim's example demands).  But
`Provider.Advance` of an ISOLATED provider returns the package-level
`Now()` of the GLOBAL source minus the isolated provider's `frozenAt`:
with the isolated provider frozen at 0 and the global source frozen at
1000, `Advance(42)` returns 1000, not the 42 the claim requires. -/
theorem provider_advance_returns_global_elapsed :
    (globalAdvance (Clock.frozen (freshFrozen 0)) 42).map Prod.snd = some 42 ∧
    (globalAdvance (Clock.frozen ((freshFrozen 0).advance 42).1) 13).map
        Prod.snd = some 55 ∧
    ((NewProvider.Freeze 0).Advance (Clock.frozen (freshFrozen 1000)) 0
        42).map Prod.snd = some 1000 ∧
    (1000 : Int) ≠ 42 := by
  refine ⟨rfl, rfl, rfl, by decide⟩

/-- C5: calling `Advance` on a provider whose installed source is not
the frozen one (nil or the real-time source) is the panic path, modelled
as `none`; the panic is raised before `ft.advance` runs, so no provider
state is produced or mutated. -/
theorem advance_requires_frozen (cp : Provider) (g : Clock) (r d : Int)
    (h : cp.provider = none ∨ cp.provider = some Clock.realtime) :
    cp.Advance g r d = none := by
  rcases h with h | h <;> simp [Provider.Advance, h]

/-- Witness for C5 at a concrete provider with the real-time source. -/
theorem advance_requires_frozen_witness :
    (Provider.mk (some Clock.realtime)).Advance Clock.realtime 0 5 = none :=
  advance_requires_frozen (Provider.mk (some Clock.realtime))
    Clock.realtime 0 5 (Or.inr rfl)

/-- C6: on a frozen source, `newTicker d` fails (panics, `none`) exactly
when `d ≤ 0`, while `tick d` never fails: it returns an absent (`none`)
channel exactly when `d ≤ 0`, leaving the source untouched in that case,
and both succeed for `d > 0`. -/
theorem newTicker_tick_asymmetry (ft : FrozenTime) (d : Int) :
    (ft.newTicker d = none ↔ d ≤ 0) ∧
    ((ft.tick d).2 = none ↔ d ≤ 0) ∧
    ((ft.tick d).1 = if d ≤ 0 then ft else (ft.schedule d d).1) ∧
    (ft.newTicker d = some (ft.schedule d d) ↔ 0 < d) := by
  by_cases h : d ≤ 0 <;>
    simp [FrozenTime.newTicker, FrozenTime.tick, h] <;> omega

/-- C8: on a frozen timeline, `advance a` then `advance b` yields the
same final `now()` as a single `advance (a + b)` (the model fires no
callbacks, so nothing alters the schedule in between), and for `0 ≤ a`
the synthetic now is non-decreasing across an advance. -/
theorem advance_additive_monotone (ft : FrozenTime) (a b : Int)
    (ha : 0 ≤ a) (hb : 0 ≤ b) :
    (((ft.advance a).1.advance b).1.now = (ft.advance (a + b)).1.now) ∧
    ft.now ≤ (ft.advance a).1.now := by
  have key : ∀ (g : FrozenTime) (d : Int),
      (g.advance d).1.currentInstant = g.currentInstant + d :=
    fun g d => rfl
  constructor
  · show (((ft.advance a).1.advance b).1.currentInstant =
      (ft.advance (a + b)).1.currentInstant)
    rw [key, key, key]; omega
  · show ft.currentInstant ≤ (ft.advance a).1.currentInstant
    rw [key]; omega

/-- Witness for C8 at the `TestAdvanceNow` durations. -/
theorem advance_additive_monotone_witness :
    ((((freshFrozen 0).advance 42).1.advance 13).1.now =
      ((freshFrozen 0).advance (42 + 13)).1.now) ∧
    (freshFrozen 0).now ≤ ((freshFrozen 0).advance 42).1.now :=
  advance_additive_monotone (freshFrozen 0) 42 13 (by decide) (by decide)

/-- C10: a provider from `NewProvider` starts with no source installed
(`none`, not the real-time source), so until `Freeze` every delegated
operation hits the nil source and panics (`none`), whereas after
`Freeze t` the provider reads `t` and the global singleton starts on the
real-time source and reads the real clock transparently. -/
theorem new_provider_nil_source (realNow d t : Int) (cnt : Nat) :
    NewProvider.provider = none ∧
    NewProvider.provider ≠ some Clock.realtime ∧
    NewProvider.Now realNow = none ∧
    NewProvider.Sleep d = none ∧
    NewProvider.After d = none ∧
    NewProvider.NewTimer d = none ∧
    NewProvider.NewTicker d = none ∧
    NewProvider.Tick d = none ∧
    NewProvider.Wait4Scheduled cnt t = none ∧
    (NewProvider.Freeze t).Now realNow = some t ∧
    Clock.now globalInitial realNow = realNow := by
  exact ⟨rfl, by simp [NewProvider], rfl, rfl, rfl, rfl, rfl, rfl, rfl, rfl,
    rfl⟩

/-- C2: a due, still-active ticker at the head of the pending queue is
re-inserted for `previous targetInstant + interval` — the fixed cadence,
independent of the instant the firing is processed at — and, concretely,
the `TestTicker` cadence scenario holds: `Advance(99)` fires nothing,
`Advance(1)` delivers instant 100, `Advance(750)` delivers exactly one
further tick carrying instant 200, and the next tick arrives at 900. -/
theorem ticker_fixed_cadence (fuel : Nat) (fa ci : Int) (ns : Nat)
    (e : ScheduledEvent) (rest acc : List ScheduledEvent) (target : Int)
    (hact : e.active = true) (hint : 0 < e.interval)
    (hdue : e.targetInstant ≤ target) :
    (fireDue (fuel + 1) ⟨fa, ci, e :: rest, ns⟩ target acc =
      fireDue fuel
        ⟨fa, e.targetInstant,
          insertEvent { e with targetInstant := e.targetInstant + e.interval }
            rest, ns⟩
        target (acc ++ [e])) ∧
    TickerCadenceScenario := by
  constructor
  · simp [fireDue, hact, hdue, hint]
  · refine ⟨by decide, by decide, by decide, by decide, by decide, by decide,
      by decide, by decide⟩

/-- Witness for C2: the cadence step at the interval-100 ticker due at
instant 100, advanced to target 100, together with the scenario. -/
theorem ticker_fixed_cadence_witness :
    (fireDue 1 ⟨0, 0, [⟨0, 100, 0, 100, true⟩], 1⟩ 100 [] =
      fireDue 0 ⟨0, 100, insertEvent ⟨0, 200, 0, 100, true⟩ [], 1⟩ 100
        ([] ++ [⟨0, 100, 0, 100, true⟩])) ∧
    TickerCadenceScenario :=
  ticker_fixed_cadence 0 0 0 1 ⟨0, 100, 0, 100, true⟩ [] [] 100 rfl
    (by decide) (by decide)

/-- After deactivating id `i`, no event with id `i` is still active. -/
theorem any_map_deactivate (i : Nat) (l : List ScheduledEvent) :
    (l.map (deactivate i)).any (isActiveEvent i) = false := by
  induction l with
  | nil => rfl
  | cons e rest ih =>
    by_cases h : e.id = i <;>
      simp [deactivate, isActiveEvent, h, ih]

/-- Deactivation of the same id twice equals deactivating it once. -/
theorem deactivate_idem (i : Nat) (e : ScheduledEvent) :
    deactivate i (deactivate i e) = deactivate i e := by
  by_cases h : e.id = i <;> simp [deactivate, h]

/-- A second deactivation pass over the pending list is a no-op. -/
theorem map_deactivate_idem (i : Nat) (l : List ScheduledEvent) :
    (l.map (deactivate i)).map (deactivate i) = l.map (deactivate i) := by
  rw [List.map_map]
  exact List.map_congr_left (fun e _ => deactivate_idem i e)

/-- C7: `Stop` on a still-pending active event returns `true`; the
second `Stop` returns `false` and leaves the state untouched; and
concretely `Stop` reports `false` on a pre-stopped timer from
`newStoppedTimer` and on an already-fired event. -/
theorem stop_idempotent (ft : FrozenTime) (i : Nat)
    (hact : ft.isScheduled i = true) :
    (ft.stop i).2 = true ∧
    ((ft.stop i).1.stop i).2 = false ∧
    ((ft.stop i).1.stop i).1 = (ft.stop i).1 ∧
    StopScenario := by
  refine ⟨hact, ?_, ?_, by decide, by decide, by decide, by decide⟩
  · show (ft.pendingEvents.map (deactivate i)).any (isActiveEvent i) = false
    exact any_map_deactivate i ft.pendingEvents
  · show FrozenTime.mk ft.frozenAt ft.currentInstant
      ((ft.pendingEvents.map (deactivate i)).map (deactivate i)) ft.nextSeq
      = FrozenTime.mk ft.frozenAt ft.currentInstant
        (ft.pendingEvents.map (deactivate i)) ft.nextSeq
    rw [map_deactivate_idem]

/-- Witness for C7 on a source holding one pending event (id 0). -/
theorem stop_idempotent_witness :
    ((((freshFrozen 0).afterFunc 100).1.stop 0).2 = true) ∧
    (((((freshFrozen 0).afterFunc 100).1.stop 0).1.stop 0).2 = false) :=
  ⟨(stop_idempotent ((freshFrozen 0).afterFunc 100).1 0 (by decide)).1,
   (stop_idempotent ((freshFrozen 0).afterFunc 100).1 0 (by decide)).2.1⟩

/-- For a list of one-shot events the advance fuel bound covers the list
length. -/
theorem oneShot_fuel (target : Int) :
    ∀ l : List ScheduledEvent, (∀ e ∈ l, e.interval = 0) →
      (l.map (eventFuel target)).sum = l.length := by
  intro l
  induction l with
  | nil => intro _; rfl
  | cons e rest ih =>
    intro h
    have he : e.interval = 0 := h e (List.mem_cons_self e rest)
    have h1 : eventFuel target e = 1 := by simp [eventFuel, he]
    have h2 := ih (fun x hx => h x (List.mem_cons_of_mem e hx))
    simp [h1, h2]
    omega

/-- The firing loop on a queue of one-shot events: with fuel at least
the queue length, the fired list is exactly the due prefix of the queue
(events up to the first one beyond `target`), restricted to active
events, appended to the accumulator. -/
theorem fireDue_oneShot :
    ∀ (l : List ScheduledEvent) (fuel : Nat) (fa ci : Int) (ns : Nat)
      (target : Int) (acc : List ScheduledEvent),
      (∀ e ∈ l, e.interval = 0) → l.length ≤ fuel →
      (fireDue fuel ⟨fa, ci, l, ns⟩ target acc).2 =
        acc ++ (l.takeWhile
            (fun e => decide (e.targetInstant ≤ target))).filter
          (fun e => e.active) := by
  intro l
  induction l with
  | nil =>
    intro fuel fa ci ns target acc _ _
    cases fuel <;> simp [fireDue]
  | cons e rest ih =>
    intro fuel fa ci ns target acc hone hlen
    cases fuel with
    | zero => simp at hlen
    | succ n =>
      have he : e.interval = 0 := hone e (List.mem_cons_self e rest)
      have hnp : ¬ (0 : Int) < e.interval := by omega
      have hrest : ∀ x ∈ rest, x.interval = 0 :=
        fun x hx => hone x (List.mem_cons_of_mem e hx)
      have hlen2 : rest.length ≤ n := by
        simp at hlen; omega
      by_cases hdue : e.targetInstant ≤ target
      · by_cases hact : e.active = true
        · rw [show (fireDue (n + 1) ⟨fa, ci, e :: rest, ns⟩ target acc) =
              fireDue n ⟨fa, e.targetInstant, rest, ns⟩ target (acc ++ [e])
            by simp [fireDue, hdue, hact, hnp]]
          rw [ih n fa e.targetInstant ns target (acc ++ [e]) hrest hlen2]
          rw [List.takeWhile_cons_of_pos (by simpa using hdue),
            List.filter_cons_of_pos (by simpa using hact)]
          simp
        · rw [show (fireDue (n + 1) ⟨fa, ci, e :: rest, ns⟩ target acc) =
              fireDue n ⟨fa, ci, rest, ns⟩ target acc
            by simp [fireDue, hdue, hact]]
          rw [ih n fa ci ns target acc hrest hlen2]
          rw [List.takeWhile_cons_of_pos (by simpa using hdue),
            List.filter_cons_of_neg (by simpa using hact)]
      · rw [show (fireDue (n + 1) ⟨fa, ci, e :: rest, ns⟩ target acc) =
            (⟨fa, ci, e :: rest, ns⟩, acc)
          by simp [fireDue, hdue]]
        rw [List.takeWhile_cons_of_neg (by simpa using hdue)]
        simp

/-- C3 (amended): on a queue of pending ONE-SHOT events held in firing
order (`evLex`: ascending target instant, ties by ascending creation
sequence), `advance` fires exactly the active events of the due prefix,
in queue order — hence in instant order, with same-instant events in
creation-sequence order — and concretely E1, E2, E3 scheduled at the
same offset 100 fire as E1, E2, E3.  The restriction to one-shot events
is forced: a ticker re-inserted during catch-up joins the TAIL of its
new instant's firing group, so it fires after a later-created event
sharing that instant, breaking creation-sequence order there (see the
counterexample below). -/
theorem advance_firing_order (ft : FrozenTime) (d : Int)
    (hone : ∀ e ∈ ft.pendingEvents, e.interval = 0)
    (hord : ft.pendingEvents.Pairwise evLex) :
    ((ft.advance d).2 =
      (ft.pendingEvents.takeWhile
          (fun e => decide (e.targetInstant ≤ ft.currentInstant + d))).filter
        (fun e => e.active)) ∧
    (ft.advance d).2.Pairwise evLex ∧
    SameInstantScenario := by
  obtain ⟨fa, ci, l, ns⟩ := ft
  have hlen : l.length ≤ fuelBound ⟨fa, ci, l, ns⟩ (ci + d) := by
    show l.length ≤ (l.map (eventFuel (ci + d))).sum + 1
    rw [oneShot_fuel (ci + d) l hone]
    omega
  have heq : (FrozenTime.advance ⟨fa, ci, l, ns⟩ d).2 =
      (l.takeWhile (fun e => decide (e.targetInstant ≤ ci + d))).filter
        (fun e => e.active) := by
    show (fireDue (fuelBound ⟨fa, ci, l, ns⟩ (ci + d)) ⟨fa, ci, l, ns⟩
        (ci + d) []).2 = _
    rw [fireDue_oneShot l (fuelBound ⟨fa, ci, l, ns⟩ (ci + d)) fa ci ns
      (ci + d) [] hone hlen]
    simp
  refine ⟨heq, ?_, by unfold SameInstantScenario; decide⟩
  rw [heq]
  exact hord.sublist
    ((List.filter_sublist _).trans (List.takeWhile_sublist _))

/-- Witness for C3 at the three-events-at-offset-100 state. -/
theorem advance_firing_order_witness :
    (threeAt100.advance 100).2.Pairwise evLex ∧ SameInstantScenario :=
  (advance_firing_order threeAt100 100 (by decide) (by decide)).2

/-- Counterexample to C3 as stated, for an event set containing a
ticker: with a ticker (handle 0, sequence 0, interval 100, so created
by `newTicker 100`) and a one-shot event (sequence 1, offset 200, as by
`afterFunc 200`) on a source frozen at 0, `advance 200` fires the
ticker at 100, then — at the SHARED instant 200 — the sequence-1
one-shot BEFORE the re-inserted sequence-0 ticker, because catch-up
re-insertion appends to the tail of the instant's group; so events
sharing a target instant do not fire in ascending creation-sequence
order. -/
theorem advance_firing_order_counterexample :
    ((((freshFrozen 0).schedule 100 100).1.schedule 200 0).1.advance
        200).2.map (fun e => (e.targetInstant, e.sequence)) =
      [(100, 0), (200, 1), (200, 0)] ∧
    ¬ ((((freshFrozen 0).schedule 100 100).1.schedule 200 0).1.advance
        200).2.Pairwise evLex := by
  refine ⟨by decide, by decide⟩

/-- Insertion splits the list at the first event with a strictly later
target: the inserted event lands after every earlier-or-equal-target
event and before the strictly-later rest. -/
theorem insertEvent_eq (e : ScheduledEvent) (l : List ScheduledEvent) :
    insertEvent e l =
      l.takeWhile (fun x => decide (x.targetInstant ≤ e.targetInstant)) ++
        e :: l.dropWhile
          (fun x => decide (x.targetInstant ≤ e.targetInstant)) := by
  induction l with
  | nil => rfl
  | cons x xs ih =>
    by_cases h : e.targetInstant < x.targetInstant
    · have hx : ¬ x.targetInstant ≤ e.targetInstant := by omega
      rw [List.takeWhile_cons_of_neg (by simpa using hx),
        List.dropWhile_cons_of_neg (by simpa using hx)]
      simp [insertEvent, h]
    · have hx : x.targetInstant ≤ e.targetInstant := by omega
      rw [List.takeWhile_cons_of_pos (by simpa using hx),
        List.dropWhile_cons_of_pos (by simpa using hx)]
      simp [insertEvent, h, ih]

/-- In a list sorted by target instant, everything the `≤ T` prefix
dropped has a target strictly beyond `T`. -/
theorem sorted_dropWhile_gt (T : Int) :
    ∀ l : List ScheduledEvent,
      l.Pairwise (fun a b => a.targetInstant ≤ b.targetInstant) →
      ∀ x ∈ l.dropWhile (fun y => decide (y.targetInstant ≤ T)),
        T < x.targetInstant := by
  intro l
  induction l with
  | nil => intro _ x hx; simp at hx
  | cons y ys ih =>
    intro hp x hx
    rcases List.pairwise_cons.mp hp with ⟨hy, hys⟩
    by_cases h : y.targetInstant ≤ T
    · rw [List.dropWhile_cons_of_pos (by simpa using h)] at hx
      exact ih hys x hx
    · rw [List.dropWhile_cons_of_neg (by simpa using h)] at hx
      rcases List.mem_cons.mp hx with rfl | hx
      · omega
      · have := hy x hx; omega

/-- C4: `Reset` on a still-pending event returns `true` and re-queues it
for `currentInstant + newInterval`, positioned after every event with
that same (or an earlier) target instant and before every strictly later
one — the tail of its instant's firing group — and concretely E1 reset
back onto the instant shared with E2 and E3 fires last: order E2, E3,
E1. -/
theorem reset_to_tail (ft : FrozenTime) (i : Nat) (d : Int)
    (hact : ft.isScheduled i = true)
    (hsort : ft.pendingEvents.Pairwise
      (fun a b => a.targetInstant ≤ b.targetInstant)) :
    (ft.reset i d).2 = true ∧
    (∃ A B ev,
      (ft.reset i d).1.pendingEvents = A ++ ev :: B ∧
      ev.id = i ∧ ev.targetInstant = ft.currentInstant + d ∧
      (∀ x ∈ A, x.targetInstant ≤ ft.currentInstant + d) ∧
      (∀ x ∈ B, ft.currentInstant + d < x.targetInstant)) ∧
    ResetToTailScenario := by
  refine ⟨hact, ?_, by unfold ResetToTailScenario threeAt100; decide⟩
  have hrest : (ft.pendingEvents.filter
      (fun e => e.id != i)).Pairwise
        (fun a b => a.targetInstant ≤ b.targetInstant) :=
    hsort.sublist (List.filter_sublist _)
  refine ⟨_, _, _, insertEvent_eq _ _, rfl, rfl, ?_, ?_⟩
  · intro x hx
    have := List.mem_takeWhile_imp hx
    simpa using this
  · intro x hx
    exact sorted_dropWhile_gt (ft.currentInstant + d) _ hrest x hx

/-- Witness for C4 at the three-events-at-offset-100 state. -/
theorem reset_to_tail_witness :
    (threeAt100.reset 0 100).2 = true :=
  (reset_to_tail threeAt100 0 100 (by decide) (by decide)).1

/-- Characterization of the sequential waiter: it reports `true` exactly
when the target count is reached within the prefix of arrivals that
occur no later than the timeout. -/
theorem wait4scheduled_eq (count : Nat) (timeout : Int) :
    ∀ (arrivals : List Int) (pending : Nat),
      wait4scheduled count timeout pending arrivals =
        decide (count ≤ pending +
          (arrivals.takeWhile (fun t => decide (t ≤ timeout))).length) := by
  intro arrivals
  induction arrivals with
  | nil => intro pending; simp [wait4scheduled]
  | cons t rest ih =>
    intro pending
    by_cases hc : count ≤ pending
    · have : count ≤ pending +
          ((t :: rest).takeWhile (fun u => decide (u ≤ timeout))).length := by
        omega
      simp [wait4scheduled, hc, this]
    · by_cases ht : t ≤ timeout
      · rw [show wait4scheduled count timeout pending (t :: rest) =
            wait4scheduled count timeout (pending + 1) rest
          by simp [wait4scheduled, hc, ht]]
        rw [ih (pending + 1),
          List.takeWhile_cons_of_pos (by simpa using ht)]
        rw [decide_eq_decide]
        simp
        omega
      · rw [show wait4scheduled count timeout pending (t :: rest) = false
          by simp [wait4scheduled, hc, ht]]
        rw [List.takeWhile_cons_of_neg (by simpa using ht)]
        simp
        omega

/-- With a zero timeout no (strictly future) arrival is in range. -/
theorem takeWhile_pos_zero (arrivals : List Int)
    (hpos : ∀ t ∈ arrivals, 0 < t) :
    arrivals.takeWhile (fun t => decide (t ≤ (0 : Int))) = [] := by
  cases arrivals with
  | nil => rfl
  | cons t rest =>
    have : 0 < t := hpos t (List.mem_cons_self t rest)
    rw [List.takeWhile_cons_of_neg (by simpa using this)]

/-- C9: `wait4scheduled(count, timeout)` returns `true` exactly when the
pending count reaches `count` within the arrivals occurring inside the
timeout, and `false` when the timeout elapses first; in particular with
the count already pending it returns `true` at once even with timeout 0,
and with fewer pending and timeout 0 it returns `false`. -/
theorem wait4scheduled_spec (count : Nat) (timeout : Int) (pending : Nat)
    (arrivals : List Int) (hpos : ∀ t ∈ arrivals, 0 < t) :
    (wait4scheduled count timeout pending arrivals =
      decide (count ≤ pending +
        (arrivals.takeWhile (fun t => decide (t ≤ timeout))).length)) ∧
    (count ≤ pending → wait4scheduled count 0 pending arrivals = true) ∧
    (pending < count → wait4scheduled count 0 pending arrivals = false) := by
  refine ⟨wait4scheduled_eq count timeout arrivals pending, ?_, ?_⟩
  · intro h
    rw [wait4scheduled_eq count 0 arrivals pending]
    simp
    omega
  · intro h
    rw [wait4scheduled_eq count 0 arrivals pending,
      takeWhile_pos_zero arrivals hpos]
    simp
    omega

/-- Witness for C9: two events pending, a third arriving at real-time
offset 50 — `Wait4Scheduled(3, 0)` misses it, `Wait4Scheduled(2, 0)`
returns at once. -/
theorem wait4scheduled_spec_witness :
    wait4scheduled 3 0 2 [50] = false ∧ wait4scheduled 2 0 2 [50] = true :=
  ⟨(wait4scheduled_spec 3 0 2 [50] (by decide)).2.2 (by decide),
   (wait4scheduled_spec 2 0 2 [50] (by decide)).2.1 (by decide)⟩

end Tackle
